import Mathlib

/-!
Verification of the finalization-and-cleanup orchestration pipeline
(`parallel_examples/awsbatch/do_stitch.py`).

The script's `main` routine is embedded as a pure function from the parsed
command-line arguments (`CmdArgs`) and the external world's responses (`Env`)
to the sequence of observable external calls it performs (`List Event`),
paired with the error it raises, if any.  External collaborators (the blob
store, GDAL, the finalization and statistics engines) are abstracted: the
data they return is supplied by `Env`, and the calls made to them are
recorded as `Event`s in program order.

Python string primitives used by the script (`str.split(sep)`, `sep.join`,
`os.path.basename`) are embedded as executable functions on `List Char`
(`pySplit`, `pyJoin`) that reproduce Python's semantics for a one-character
separator.
-/

namespace DoStitch

/-- Python `s.split(sep)` for a single-character separator, on the
underlying character list.  Python returns `count(sep) + 1` pieces, with
`"".split(sep) = [""]`. -/
def pySplit (sep : Char) : List Char → List (List Char)
  | [] => [[]]
  | c :: rest =>
    let r := pySplit sep rest
    if c = sep then [] :: r
    else
      match r with
      | [] => [[c]]
      | p :: ps => (c :: p) :: ps

/-- Python `sep.join(pieces)` for a single-character separator. -/
def pyJoin (sep : Char) : List (List Char) → List Char
  | [] => []
  | [p] => p
  | p :: ps => p ++ sep :: pyJoin sep ps

theorem pySplit_ne_nil (sep : Char) (l : List Char) : pySplit sep l ≠ [] := by
  cases l with
  | nil => simp [pySplit]
  | cons c rest =>
    simp only [pySplit]
    by_cases h : c = sep
    · simp [h]
    · simp only [h, if_false]
      cases pySplit sep rest with
      | nil => simp
      | cons p ps => simp

theorem pySplit_of_not_mem (sep : Char) (l : List Char) (h : sep ∉ l) :
    pySplit sep l = [l] := by
  induction l with
  | nil => rfl
  | cons c rest ih =>
    simp only [List.mem_cons, not_or] at h
    simp only [pySplit, ih h.2]
    simp [Ne.symm h.1]

theorem pySplit_append (sep : Char) (a b : List Char) :
    pySplit sep (a ++ sep :: b) = pySplit sep a ++ pySplit sep b := by
  induction a with
  | nil => simp [pySplit]
  | cons c a ih =>
    simp only [List.cons_append, pySplit]
    by_cases h : c = sep
    · simpa [h] using ih
    · simp only [h, if_false]
      cases hpa : pySplit sep a with
      | nil => exact absurd hpa (pySplit_ne_nil sep a)
      | cons p ps => simp only [List.append_eq]; rw [ih, hpa]; simp

theorem pySplit_length (sep : Char) (l : List Char) :
    (pySplit sep l).length = l.count sep + 1 := by
  induction l with
  | nil => simp [pySplit]
  | cons c rest ih =>
    simp only [pySplit]
    by_cases h : c = sep
    · simp [h, ih, List.count_cons]
    · simp only [h, if_false]
      cases hpr : pySplit sep rest with
      | nil => exact absurd hpr (pySplit_ne_nil sep rest)
      | cons p ps =>
        have := ih
        rw [hpr] at this
        simp only [List.length_cons] at this ⊢
        simp [List.count_cons, h, this]

theorem pyJoin_pySplit (sep : Char) (l : List Char) :
    pyJoin sep (pySplit sep l) = l := by
  induction l with
  | nil => rfl
  | cons c rest ih =>
    simp only [pySplit]
    by_cases h : c = sep
    · subst h
      cases hpr : pySplit c rest with
      | nil => exact absurd hpr (pySplit_ne_nil c rest)
      | cons p ps =>
        rw [hpr] at ih
        simp only [if_pos rfl]
        cases ps with
        | nil => simpa [pyJoin] using ih
        | cons q qs => simpa [pyJoin] using ih
    · simp only [h, if_false]
      cases hpr : pySplit sep rest with
      | nil => exact absurd hpr (pySplit_ne_nil sep rest)
      | cons p ps =>
        rw [hpr] at ih
        cases ps with
        | nil => simpa [pyJoin] using ih
        | cons q qs => simpa [pyJoin] using ih

/-- Splitting at an explicit final separator, when the tail holds no
separator: the pieces are the pieces of the front followed by the tail. -/
theorem pySplit_last (sep : Char) (m f : List Char) (hf : sep ∉ f) :
    pySplit sep (m ++ sep :: f) = pySplit sep m ++ [f] := by
  rw [pySplit_append, pySplit_of_not_mem sep f hf]

/-- Unique decomposition at a separator absent from the front parts. -/
theorem append_sep_inj (sep : Char) (a b c d : List Char)
    (ha : sep ∉ a) (hc : sep ∉ c) (h : a ++ sep :: b = c ++ sep :: d) :
    a = c ∧ b = d := by
  induction a generalizing c with
  | nil =>
    cases c with
    | nil => simpa using h
    | cons y ys =>
      simp only [List.nil_append, List.cons_append, List.cons.injEq] at h
      simp only [List.mem_cons, not_or] at hc
      exact absurd h.1 hc.1
  | cons x xs ih =>
    cases c with
    | nil =>
      simp only [List.cons_append, List.nil_append, List.cons.injEq] at h
      simp only [List.mem_cons, not_or] at ha
      exact absurd h.1.symm ha.1
    | cons y ys =>
      simp only [List.cons_append, List.cons.injEq] at h
      simp only [List.mem_cons, not_or] at ha hc
      obtain ⟨h1, h2⟩ := ih ys ha.2 hc.2 h.2
      exact ⟨by rw [h.1, h1], h2⟩

/-! ### Decimal rendering (Python `str(int)` / Lean `toString : Int → String`)

`do_stitch.py` renders tile coordinates with `str.format`, i.e. Python's
decimal rendering of `int`, embedded here as Lean's `toString : Int → String`
(same decimal notation, `-` sign for negatives).  The lemmas below establish
that this rendering is injective and produces only digits and `-`. -/

/-- Numeric value of a decimal digit character. -/
def digitVal (c : Char) : Nat := c.toNat - 48

/-- Read a digit list back as a number (left fold, most significant first). -/
def parseNat (l : List Char) : Nat := l.foldl (fun a c => 10 * a + digitVal c) 0

theorem digitVal_digitChar (k : Nat) (h : k < 10) :
    digitVal (Nat.digitChar k) = k := by
  interval_cases k <;> rfl

theorem digitChar_isDigit (k : Nat) (h : k < 10) :
    (Nat.digitChar k).isDigit = true := by
  interval_cases k <;> rfl

theorem toDigitsCore_acc (fuel n : Nat) (ds : List Char) :
    Nat.toDigitsCore 10 fuel n ds = Nat.toDigitsCore 10 fuel n [] ++ ds := by
  induction fuel generalizing n ds with
  | zero => rfl
  | succ fuel ih =>
    simp only [Nat.toDigitsCore]
    by_cases h : n / 10 = 0
    · simp [h]
    · simp only [h, if_false]
      rw [ih (n / 10) (Nat.digitChar (n % 10) :: ds),
        ih (n / 10) [Nat.digitChar (n % 10)]]
      simp

theorem parseNat_append_digit (l : List Char) (c : Char) :
    parseNat (l ++ [c]) = 10 * parseNat l + digitVal c := by
  simp [parseNat, List.foldl_append]

theorem parseNat_toDigitsCore (fuel n : Nat) (h : n < fuel) :
    parseNat (Nat.toDigitsCore 10 fuel n []) = n := by
  induction fuel generalizing n with
  | zero => omega
  | succ fuel ih =>
    simp only [Nat.toDigitsCore]
    by_cases hd : n / 10 = 0
    · simp only [hd, if_pos]
      have hn : n < 10 := by omega
      simp [parseNat, Nat.mod_eq_of_lt hn, digitVal_digitChar n hn]
    · simp only [hd, if_false]
      rw [toDigitsCore_acc, parseNat_append_digit,
        ih (n / 10) (by omega),
        digitVal_digitChar (n % 10) (Nat.mod_lt n (by omega))]
      omega

theorem parseNat_toDigits (n : Nat) : parseNat (Nat.toDigits 10 n) = n :=
  parseNat_toDigitsCore (n + 1) n (Nat.lt_succ_self n)

theorem toDigitsCore_isDigit (fuel n : Nat) (ds : List Char)
    (hds : ∀ c ∈ ds, c.isDigit = true) :
    ∀ c ∈ Nat.toDigitsCore 10 fuel n ds, c.isDigit = true := by
  induction fuel generalizing n ds with
  | zero => exact hds
  | succ fuel ih =>
    simp only [Nat.toDigitsCore]
    by_cases h : n / 10 = 0
    · simp only [h, if_pos]
      intro c hc
      rcases List.mem_cons.mp hc with h1 | h2
      · rw [h1]; exact digitChar_isDigit _ (Nat.mod_lt n (by norm_num) |>.trans_le (le_refl 10) |> fun _ => Nat.mod_lt n (by norm_num))
      · exact hds c h2
    · simp only [h, if_false]
      refine ih (n / 10) _ ?_
      intro c hc
      rcases List.mem_cons.mp hc with h1 | h2
      · rw [h1]; exact digitChar_isDigit _ (Nat.mod_lt n (by omega))
      · exact hds c h2

theorem toDigits_isDigit (n : Nat) :
    ∀ c ∈ Nat.toDigits 10 n, c.isDigit = true :=
  toDigitsCore_isDigit (n + 1) n [] (by simp)

theorem toDigits_ne_nil (n : Nat) : Nat.toDigits 10 n ≠ [] := by
  simp only [Nat.toDigits, Nat.toDigitsCore]
  by_cases h : n / 10 = 0
  · simp [h]
  · simp only [h, if_false]
    rw [toDigitsCore_acc]
    simp

theorem natRepr_data (n : Nat) : (Nat.repr n).data = Nat.toDigits 10 n := rfl

theorem natRepr_inj (m n : Nat) (h : (Nat.repr m).data = (Nat.repr n).data) :
    m = n := by
  rw [natRepr_data, natRepr_data] at h
  rw [← parseNat_toDigits m, ← parseNat_toDigits n, h]

theorem intToString_ofNat (m : Nat) :
    (toString (Int.ofNat m)).data = Nat.toDigits 10 m := rfl

theorem intToString_negSucc (m : Nat) :
    (toString (Int.negSucc m)).data = '-' :: Nat.toDigits 10 (m + 1) := by
  show ("-" ++ Nat.repr (m + 1)).data = '-' :: Nat.toDigits 10 (m + 1)
  simp [String.data_append, natRepr_data]

theorem intToString_chars (i : Int) :
    ∀ c ∈ (toString i).data, c.isDigit = true ∨ c = '-' := by
  cases i with
  | ofNat m =>
    rw [intToString_ofNat]
    intro c hc
    exact Or.inl (toDigits_isDigit m c hc)
  | negSucc m =>
    rw [intToString_negSucc]
    intro c hc
    rcases List.mem_cons.mp hc with h1 | h2
    · exact Or.inr h1
    · exact Or.inl (toDigits_isDigit (m + 1) c h2)

theorem underscore_not_mem_intToString (i : Int) : '_' ∉ (toString i).data := by
  intro hmem
  rcases intToString_chars i '_' hmem with h | h
  · simp [Char.isDigit] at h
  · simp at h

theorem intToString_inj (i j : Int) (h : (toString i).data = (toString j).data) :
    i = j := by
  cases i with
  | ofNat m =>
    cases j with
    | ofNat n =>
      rw [intToString_ofNat, intToString_ofNat] at h
      have hmn : m = n := by
        rw [← parseNat_toDigits m, ← parseNat_toDigits n, h]
      rw [hmn]
    | negSucc n =>
      rw [intToString_ofNat, intToString_negSucc] at h
      cases hm : Nat.toDigits 10 m with
      | nil => exact absurd hm (toDigits_ne_nil m)
      | cons c cs =>
        rw [hm] at h
        have hc : c = '-' := (List.cons.injEq _ _ _ _ ▸ h).1
        have : c.isDigit = true := toDigits_isDigit m c (hm ▸ List.mem_cons_self c cs)
        rw [hc] at this
        simp [Char.isDigit] at this
  | negSucc m =>
    cases j with
    | ofNat n =>
      rw [intToString_negSucc, intToString_ofNat] at h
      cases hn : Nat.toDigits 10 n with
      | nil => exact absurd hn (toDigits_ne_nil n)
      | cons c cs =>
        rw [hn] at h
        have hc : '-' = c := (List.cons.injEq _ _ _ _ ▸ h).1
        have : c.isDigit = true := toDigits_isDigit n c (hn ▸ List.mem_cons_self c cs)
        rw [← hc] at this
        simp [Char.isDigit] at this
    | negSucc n =>
      rw [intToString_negSucc, intToString_negSucc] at h
      have h2 : Nat.toDigits 10 (m + 1) = Nat.toDigits 10 (n + 1) :=
        (List.cons.injEq _ _ _ _ ▸ h).2
      have hmn : m = n := by
        have : m + 1 = n + 1 := by
          rw [← parseNat_toDigits (m + 1), h2, parseNat_toDigits]
        omega
      rw [hmn]

/-! ### Data model -/

/-- Errors raised by `main` itself (exceptions from external collaborators
are out of scope; the environment supplies their successful results).
`unpackErr` is Python's `ValueError` from tuple unpacking
(`bucket, key = s.split(x)` with a piece count other than 2); `valueErr`
is an explicit `raise ValueError(msg)`; `importErr` is
`ModuleNotFoundError` from `importlib.import_module`. -/
inductive Err where
  | unpackErr (expected got : Nat)
  | valueErr (msg : String)
  | importErr (moduleName : String)
  deriving DecidableEq

/-- The RIOS `applier.ConcurrencyStyle` record as constructed by
`do_stitch.py`: a read-worker count and four optional timeouts, each of
which defaults to unset. -/
structure ConcurrencyStyle where
  numReadWorkers : Int
  readBufferPopTimeout : Option Int := none
  readBufferInsertTimeout : Option Int := none
  computeBufferInsertTimeout : Option Int := none
  computeBufferPopTimeout : Option Int := none
  deriving DecidableEq

/-- Observable external calls made by `main`, in program order.  A
`statsAgg`/`statsSpatial` event stands for one call into the statistics
engine (`tilingstats.calcPerSegmentStatsRIOS` /
`calcPerSegmentSpatialStatsRIOS`); the engine opens and closes its own
handle to `outPath` strictly inside the call. -/
inductive Event where
  | downloadFileobj (bucket key : String)
  | gdalOpen (path : String)
  | finalize (outPath : String)
  | deleteBatch (bucket : String) (keys : List String)
  | readHistogram
  | estimateStats
  | writeColourTable (numColours : Int)
  | addOverviews
  | closeHandle (path : String)
  | statsAgg (img : String) (band : Int) (selection : String)
      (outPath : String) (cs : ConcurrencyStyle)
  | statsSpatial (img : String) (band : Int) (outPath : String)
      (colInfo : String) (userFunc : String × String) (param : String)
      (cs : ConcurrencyStyle)
  | uploadFile (localPath bucket key : String)
  deriving DecidableEq

/-- The parsed command line of `do_stitch.py` (`getCmdargs`).  The field
`tilepfx` is the `--tileprefix` argument. -/
structure CmdArgs where
  bucket : String
  infile : String
  outfile : String
  tilepfx : String
  pickle : String
  overlapsize : Int
  stats : Option String := none
  spatialstats : Option String := none
  nogdalstats : Bool := false
  noremove : Bool := false
  statsreadworkers : Int := 0
  readworkerstimeouts : Option Int := none

/-- Data supplied by the external world during one run: the unpickled
preparation state (`colRowList`; `tileInfo` is opaque and never inspected
by `main`), the finalization engine's results, the parsed contents of the
two optional statistics request documents, and the attributes of loadable
Python modules (`none` means `import_module` would fail). -/
structure Env where
  tempDir : String
  colRowList : List (Int × Int)
  maxSegId : Int
  hasEmptySegments : Bool
  statsDoc : List (String × Int × String)
  spatialDoc : List (String × Int × String × String × String)
  modules : String → Option (List String)

/-! ### String-building helpers from the source -/

/-- GDAL path of an object in a bucket: `'/vsis3/' + bucket + '/' + key`. -/
def vsis3Path (bucket key : String) : String :=
  "/vsis3/" ++ bucket ++ "/" ++ key

/-- The tile name resolver. The key of a tile, shared with `do_tile.py`:
`'{}_{}_{}.{}'.format(tileprefix, col, row, 'tif')`. -/
def tileKey (pfx : String) (col row : Int) : String :=
  pfx ++ "_" ++ toString col ++ "_" ++ toString row ++ ".tif"

/-- `os.path.basename` for POSIX paths: the part after the last slash. -/
def basename (path : String) : String :=
  String.mk ((pySplit '/' path.data).getLastD [])

/-- `localOutfile = os.path.join(tempDir, os.path.basename(cmdargs.outfile))`. -/
def localOut (a : CmdArgs) (env : Env) : String :=
  env.tempDir ++ "/" ++ basename a.outfile

/-- The `tileFilenames` mapping handed to the finalization engine, in
`colRowList` order (coordinates are unique per the upstream contract, so
the Python dict holds one entry per list element, in insertion order). -/
def tileFilenames (a : CmdArgs) (env : Env) : List ((Int × Int) × String) :=
  env.colRowList.map (fun cr => (cr, vsis3Path a.bucket (tileKey a.tilepfx cr.1 cr.2)))

/-- The tile keys deleted by the tile-cleanup loop, in iteration order. -/
def tileDeleteKeys (a : CmdArgs) (env : Env) : List String :=
  env.colRowList.map (fun cr => tileKey a.tilepfx cr.1 cr.2)

/-! ### Locator parsing (`bucket, key = locator.split(':')`) -/

/-- First piece of a `bucket:key` locator. -/
def locatorBucket (loc : String) : String :=
  String.mk ((pySplit ':' loc.data).getD 0 [])

/-- Second piece of a `bucket:key` locator. -/
def locatorKey (loc : String) : String :=
  String.mk ((pySplit ':' loc.data).getD 1 [])

/-- `bucket, key = loc.split(':')`: succeeds exactly when the split yields
two pieces, otherwise Python raises `ValueError` from tuple unpacking. -/
def parseLocator (loc : String) : Except Err (String × String) :=
  match pySplit ':' loc.data with
  | [b, k] => Except.ok (String.mk b, String.mk k)
  | ps => Except.error (Err.unpackErr 2 ps.length)

/-! ### Batched tile deletion (the `while len(objs) > 0` loop) -/

/-- One step per iteration of the deletion loop: delete `objs[0:1000]`,
then `del objs[0:1000]`.  The fuel argument only bounds the recursion and
never runs out when it starts at the list length. -/
def chunkCore : Nat → List String → List (List String)
  | _, [] => []
  | 0, _ => []
  | fuel + 1, l => l.take 1000 :: chunkCore fuel (l.drop 1000)

/-- The sequence of key batches deleted by the loop, in order. -/
def chunk1000 (l : List String) : List (List String) :=
  chunkCore l.length l

/-! ### Concurrency configuration and callback resolution -/

/-- Construction of the `ConcurrencyStyle` passed to the statistics calls:
with `--readworkerstimeouts` given, all four timeouts take that value;
otherwise only the read-worker count is passed. -/
def mkConcurrencyStyle (statsreadworkers : Int) (readworkerstimeouts : Option Int) :
    ConcurrencyStyle :=
  match readworkerstimeouts with
  | some t =>
    { numReadWorkers := statsreadworkers
      readBufferPopTimeout := some t
      readBufferInsertTimeout := some t
      computeBufferInsertTimeout := some t
      computeBufferPopTimeout := some t }
  | none => { numReadWorkers := statsreadworkers }

/-- Message of the `ValueError` raised for a user function name with no
dot. -/
def fullyQualifiedMsg : String :=
  "\x27userFunc\x27 must be a fully qualified function name. " ++
  "ie. modulename.function_name. eg. pyshepseg.tilingstats.userFuncVariogram"

/-- Message of the `ValueError` raised when the module loads but the
function is absent. -/
def cannotFindMsg (funcName moduleName : String) : String :=
  "Cannot find function " ++ funcName ++ " in module " ++ moduleName

/-- Resolution of a user function name inside the spatial-stats loop:
split at dots, require at least two components, rejoin all but the last as
the module path, import it, and look the final component up on the module.
The resolved callable is represented by its (module, function) names. -/
def resolveUserFunc (modules : String → Option (List String)) (userFuncName : String) :
    Except Err (String × String) :=
  let userFuncArr := pySplit '.' userFuncName.data
  if userFuncArr.length < 2 then
    Except.error (Err.valueErr fullyQualifiedMsg)
  else
    let moduleName := String.mk (pyJoin '.' userFuncArr.dropLast)
    let funcName := String.mk (userFuncArr.getLastD [])
    match modules moduleName with
    | none => Except.error (Err.importErr moduleName)
    | some attrs =>
      if funcName ∈ attrs then Except.ok (moduleName, funcName)
      else Except.error (Err.valueErr (cannotFindMsg funcName moduleName))

/-! ### The orchestrator -/

/-- The aggregate-statistics stage (`if cmdargs.stats is not None`):
parse the locator, download the request document, then one statistics
engine call per document tuple, in order. -/
def aggStage (a : CmdArgs) (env : Env) (cs : ConcurrencyStyle) (outPath : String) :
    List Event × Option Err :=
  match a.stats with
  | none => ([], none)
  | some loc =>
    match parseLocator loc with
    | Except.error e => ([], some e)
    | Except.ok (bucket, statsKey) =>
      (Event.downloadFileobj bucket statsKey ::
        env.statsDoc.map (fun t => Event.statsAgg t.1 t.2.1 t.2.2 outPath cs), none)

/-- The per-tuple loop of the spatial-statistics stage: resolve the user
function, then call the statistics engine; a resolution failure aborts the
loop, keeping the events of the tuples already processed. -/
def spatialLoop (modules : String → Option (List String))
    (doc : List (String × Int × String × String × String))
    (outPath : String) (cs : ConcurrencyStyle) : List Event × Option Err :=
  match doc with
  | [] => ([], none)
  | t :: rest =>
    match resolveUserFunc modules t.2.2.2.1 with
    | Except.error e => ([], some e)
    | Except.ok uf =>
      let r := spatialLoop modules rest outPath cs
      (Event.statsSpatial t.1 t.2.1 outPath t.2.2.1 uf t.2.2.2.2 cs :: r.1, r.2)

/-- The spatial-statistics stage (`if cmdargs.spatialstats is not None`). -/
def spatialStage (a : CmdArgs) (env : Env) (cs : ConcurrencyStyle) (outPath : String) :
    List Event × Option Err :=
  match a.spatialstats with
  | none => ([], none)
  | some loc =>
    match parseLocator loc with
    | Except.error e => ([], some e)
    | Except.ok (bucket, spatialKey) =>
      let r := spatialLoop env.modules env.spatialDoc outPath cs
      (Event.downloadFileobj bucket spatialKey :: r.1, r.2)

/-- Keys of the final cleanup batch: the pickle, then the aggregate
request key when configured, then the spatial request key when
configured.  Both deletions target `cmdargs.bucket`. -/
def finalCleanupKeys (a : CmdArgs) : List String :=
  [a.pickle]
    ++ (match a.stats with | some loc => [locatorKey loc] | none => [])
    ++ (match a.spatialstats with | some loc => [locatorKey loc] | none => [])

/-- Publish and final cleanup: upload the local KEA file, then (unless
`--noremove`) delete the pickle and request documents in one call. -/
def finalEvents (a : CmdArgs) (env : Env) : List Event :=
  Event.uploadFile (localOut a env) a.bucket a.outfile ::
    (if a.noremove then [] else [Event.deleteBatch a.bucket (finalCleanupKeys a)])

/-- The default GDAL statistics block (`if not cmdargs.nogdalstats`). -/
def gdalStatsEvents (env : Env) : List Event :=
  [Event.readHistogram, Event.estimateStats,
   Event.writeColourTable (env.maxSegId + 1), Event.addOverviews]

/-- Events up to and including `del localDs`: fetch the pickle, open the
input raster, finalize, tile cleanup (unless `--noremove`), default GDAL
statistics (unless `--nogdalstats`), close the local dataset handle. -/
def preEvents (a : CmdArgs) (env : Env) : List Event :=
  [Event.downloadFileobj a.bucket a.pickle,
   Event.gdalOpen (vsis3Path a.bucket a.infile),
   Event.finalize (localOut a env)]
    ++ (if a.noremove then []
        else (chunk1000 (tileDeleteKeys a env)).map (fun b => Event.deleteBatch a.bucket b))
    ++ (if a.nogdalstats then [] else gdalStatsEvents env)
    ++ [Event.closeHandle (localOut a env)]

/-- The concurrency configuration built once before the statistics
stages. -/
def runCS (a : CmdArgs) : ConcurrencyStyle :=
  mkConcurrencyStyle a.statsreadworkers a.readworkerstimeouts

/-- The aggregate-statistics stage as invoked by `main`. -/
def runAgg (a : CmdArgs) (env : Env) : List Event × Option Err :=
  aggStage a env (runCS a) (localOut a env)

/-- The spatial-statistics stage as invoked by `main`. -/
def runSp (a : CmdArgs) (env : Env) : List Event × Option Err :=
  spatialStage a env (runCS a) (localOut a env)

/-- The whole of `main`: the sequence of external calls it performs, and
the error that aborts it, if any.  An error in a stage truncates the trace
right where the exception is raised. -/
def runMain (a : CmdArgs) (env : Env) : List Event × Option Err :=
  match (runAgg a env).2 with
  | some e => (preEvents a env ++ (runAgg a env).1, some e)
  | none =>
    match (runSp a env).2 with
    | some e => (preEvents a env ++ (runAgg a env).1 ++ (runSp a env).1, some e)
    | none =>
      (preEvents a env ++ (runAgg a env).1 ++ (runSp a env).1 ++ finalEvents a env, none)

/-! ### Handle accounting -/

/-- Whether an event is a statistics engine invocation. -/
def isStatsCall : Event → Bool
  | Event.statsAgg _ _ _ _ _ => true
  | Event.statsSpatial _ _ _ _ _ _ _ => true
  | _ => false

/-- Net change an event makes to the number of open handles on the output
raster path: finalize opens the local dataset, `del localDs` closes it;
statistics calls open and close their own handle strictly inside the call,
so their net effect is zero. -/
def openDelta (outPath : String) : Event → Int
  | Event.finalize p => if p = outPath then 1 else 0
  | Event.closeHandle p => if p = outPath then -1 else 0
  | _ => 0

/-- Number of handles open on `outPath` after a sequence of events. -/
def openCount (outPath : String) (l : List Event) : Int :=
  (l.map (openDelta outPath)).sum

/-! ### Lemmas on the deletion batching -/

theorem chunkCore_nil (fuel : Nat) : chunkCore fuel [] = [] := by
  cases fuel <;> rfl

theorem chunkCore_mono (f1 : Nat) : ∀ (l : List String) (f2 : Nat),
    l.length ≤ f1 → l.length ≤ f2 → chunkCore f1 l = chunkCore f2 l := by
  induction f1 with
  | zero =>
    intro l f2 h1 _
    have hl : l = [] := List.eq_nil_of_length_eq_zero (by omega)
    subst hl
    rw [chunkCore_nil, chunkCore_nil]
  | succ f1 ih =>
    intro l f2 h1 h2
    cases l with
    | nil => rw [chunkCore_nil, chunkCore_nil]
    | cons x xs =>
      cases f2 with
      | zero => simp at h2
      | succ f2 =>
        show (x :: xs).take 1000 :: chunkCore f1 ((x :: xs).drop 1000) =
          (x :: xs).take 1000 :: chunkCore f2 ((x :: xs).drop 1000)
        rw [ih ((x :: xs).drop 1000) f2
          (by simp only [List.length_drop, List.length_cons] at h1 ⊢; omega)
          (by simp only [List.length_drop, List.length_cons] at h2 ⊢; omega)]

theorem chunk1000_nil : chunk1000 [] = [] := rfl

theorem chunk1000_cons (l : List String) (h : l ≠ []) :
    chunk1000 l = l.take 1000 :: chunk1000 (l.drop 1000) := by
  cases l with
  | nil => exact absurd rfl h
  | cons x xs =>
    show (x :: xs).take 1000 :: chunkCore xs.length ((x :: xs).drop 1000) =
      (x :: xs).take 1000 :: chunk1000 ((x :: xs).drop 1000)
    rw [chunkCore_mono xs.length ((x :: xs).drop 1000) ((x :: xs).drop 1000).length
      (by simp only [List.length_drop, List.length_cons]; omega) (le_refl _)]
    rfl

theorem chunkCore_length (fuel : Nat) : ∀ l : List String, l.length ≤ fuel →
    (chunkCore fuel l).length = (l.length + 999) / 1000 := by
  induction fuel with
  | zero =>
    intro l h
    have hl : l = [] := List.eq_nil_of_length_eq_zero (by omega)
    subst hl
    rw [chunkCore_nil]
    rfl
  | succ fuel ih =>
    intro l h
    cases l with
    | nil => rw [chunkCore_nil]; rfl
    | cons x xs =>
      show ((x :: xs).take 1000 :: chunkCore fuel ((x :: xs).drop 1000)).length =
        ((x :: xs).length + 999) / 1000
      rw [List.length_cons, ih ((x :: xs).drop 1000)
        (by simp only [List.length_drop, List.length_cons] at h ⊢; omega)]
      simp only [List.length_drop, List.length_cons]
      omega

theorem chunk1000_length (l : List String) :
    (chunk1000 l).length = (l.length + 999) / 1000 :=
  chunkCore_length l.length l (le_refl _)

theorem chunkCore_batch_le (fuel : Nat) : ∀ l : List String,
    ∀ b ∈ chunkCore fuel l, b.length ≤ 1000 := by
  induction fuel with
  | zero =>
    intro l b hb
    cases l with
    | nil => rw [chunkCore_nil] at hb; simp at hb
    | cons x xs => simp [chunkCore] at hb
  | succ fuel ih =>
    intro l b hb
    cases l with
    | nil => rw [chunkCore_nil] at hb; simp at hb
    | cons x xs =>
      rcases List.mem_cons.mp hb with h1 | h2
      · rw [h1]
        simp only [List.length_take]
        omega
      · exact ih _ b h2

theorem chunk1000_batch_le (l : List String) :
    ∀ b ∈ chunk1000 l, b.length ≤ 1000 :=
  chunkCore_batch_le l.length l

theorem chunkCore_flatten (fuel : Nat) : ∀ l : List String, l.length ≤ fuel →
    (chunkCore fuel l).flatten = l := by
  induction fuel with
  | zero =>
    intro l h
    have hl : l = [] := List.eq_nil_of_length_eq_zero (by omega)
    subst hl
    rw [chunkCore_nil]
    rfl
  | succ fuel ih =>
    intro l h
    cases l with
    | nil => rw [chunkCore_nil]; rfl
    | cons x xs =>
      show ((x :: xs).take 1000 :: chunkCore fuel ((x :: xs).drop 1000)).flatten = x :: xs
      rw [List.flatten_cons, ih ((x :: xs).drop 1000)
        (by simp only [List.length_drop, List.length_cons] at h ⊢; omega)]
      exact List.take_append_drop 1000 (x :: xs)

theorem chunk1000_flatten (l : List String) : (chunk1000 l).flatten = l :=
  chunkCore_flatten l.length l (le_refl _)

/-! ### Lemmas on handle accounting -/

theorem openCount_cons (p : String) (e : Event) (l : List Event) :
    openCount p (e :: l) = openDelta p e + openCount p l := by
  simp [openCount]

theorem openCount_zero (p : String) (l : List Event)
    (h : ∀ e ∈ l, openDelta p e = 0) : openCount p l = 0 := by
  induction l with
  | nil => rfl
  | cons e l ih =>
    rw [openCount_cons, h e (List.mem_cons_self e l),
      ih (fun x hx => h x (List.mem_cons_of_mem e hx))]
    rfl

theorem openCount_take_zero (p : String) (l : List Event)
    (h : ∀ e ∈ l, openDelta p e = 0) (n : Nat) : openCount p (l.take n) = 0 :=
  openCount_zero p (l.take n) (fun e he => h e (List.take_subset n l he))

theorem openCount_take_nonpos (p : String) (B C : List Event)
    (hB : ∀ e ∈ B, openDelta p e = 0) (hC : ∀ e ∈ C, openDelta p e = 0) :
    ∀ n : Nat, openCount p ((B ++ Event.closeHandle p :: C).take n) ≤ 0 := by
  induction B with
  | nil =>
    intro n
    cases n with
    | zero => simp [openCount]
    | succ n =>
      simp only [List.nil_append, List.take_succ_cons, openCount_cons]
      rw [openCount_take_zero p C hC n]
      simp [openDelta]
  | cons b B ih =>
    intro n
    cases n with
    | zero => simp [openCount]
    | succ n =>
      simp only [List.cons_append, List.take_succ_cons, openCount_cons]
      rw [hB b (List.mem_cons_self b B)]
      have := ih (fun x hx => hB x (List.mem_cons_of_mem b hx)) n
      omega

theorem runMain_agg_err (a : CmdArgs) (env : Env) (e : Err)
    (h : (runAgg a env).2 = some e) :
    runMain a env = (preEvents a env ++ (runAgg a env).1, some e) := by
  simp only [runMain, h]

theorem runMain_sp_err (a : CmdArgs) (env : Env) (e : Err)
    (hagg : (runAgg a env).2 = none) (hsp : (runSp a env).2 = some e) :
    runMain a env = (preEvents a env ++ (runAgg a env).1 ++ (runSp a env).1, some e) := by
  simp only [runMain, hagg, hsp]

theorem runMain_ok (a : CmdArgs) (env : Env)
    (hagg : (runAgg a env).2 = none) (hsp : (runSp a env).2 = none) :
    runMain a env =
      (preEvents a env ++ (runAgg a env).1 ++ (runSp a env).1 ++ finalEvents a env,
        none) := by
  simp only [runMain, hagg, hsp]

theorem runMain_snd_none (a : CmdArgs) (env : Env) (h : (runMain a env).2 = none) :
    (runAgg a env).2 = none ∧ (runSp a env).2 = none := by
  by_cases hagg : (runAgg a env).2 = none
  · by_cases hsp : (runSp a env).2 = none
    · exact ⟨hagg, hsp⟩
    · obtain ⟨e, he⟩ := Option.ne_none_iff_exists'.mp hsp
      rw [runMain_sp_err a env e hagg he] at h
      simp at h
  · obtain ⟨e, he⟩ := Option.ne_none_iff_exists'.mp hagg
    rw [runMain_agg_err a env e he] at h
    simp at h

theorem aggStage_none (a : CmdArgs) (env : Env) (cs : ConcurrencyStyle) (o : String)
    (h : a.stats = none) : aggStage a env cs o = ([], none) := by
  simp [aggStage, h]

theorem aggStage_some_err (a : CmdArgs) (env : Env) (cs : ConcurrencyStyle)
    (o : String) (loc : String) (e : Err) (h : a.stats = some loc)
    (hp : parseLocator loc = Except.error e) :
    aggStage a env cs o = ([], some e) := by
  simp [aggStage, h, hp]

theorem aggStage_some_ok (a : CmdArgs) (env : Env) (cs : ConcurrencyStyle)
    (o : String) (loc b k : String) (h : a.stats = some loc)
    (hp : parseLocator loc = Except.ok (b, k)) :
    aggStage a env cs o =
      (Event.downloadFileobj b k ::
        env.statsDoc.map (fun t => Event.statsAgg t.1 t.2.1 t.2.2 o cs), none) := by
  simp [aggStage, h, hp]

theorem spatialStage_none (a : CmdArgs) (env : Env) (cs : ConcurrencyStyle)
    (o : String) (h : a.spatialstats = none) : spatialStage a env cs o = ([], none) := by
  simp [spatialStage, h]

theorem spatialStage_some_err (a : CmdArgs) (env : Env) (cs : ConcurrencyStyle)
    (o : String) (loc : String) (e : Err) (h : a.spatialstats = some loc)
    (hp : parseLocator loc = Except.error e) :
    spatialStage a env cs o = ([], some e) := by
  simp [spatialStage, h, hp]

theorem spatialStage_some_ok (a : CmdArgs) (env : Env) (cs : ConcurrencyStyle)
    (o : String) (loc b k : String) (h : a.spatialstats = some loc)
    (hp : parseLocator loc = Except.ok (b, k)) :
    spatialStage a env cs o =
      (Event.downloadFileobj b k :: (spatialLoop env.modules env.spatialDoc o cs).1,
        (spatialLoop env.modules env.spatialDoc o cs).2) := by
  simp [spatialStage, h, hp]

/-- Locator parsing dichotomy: with exactly one colon the parse yields the
two pieces; otherwise tuple unpacking raises, reporting the piece count. -/
theorem parseLocator_cases (loc : String) :
    (loc.data.count ':' = 1 ∧
      parseLocator loc = Except.ok (locatorBucket loc, locatorKey loc)) ∨
    (loc.data.count ':' ≠ 1 ∧
      parseLocator loc = Except.error (Err.unpackErr 2 (loc.data.count ':' + 1))) := by
  have hlen := pySplit_length ':' loc.data
  cases hsp : pySplit ':' loc.data with
  | nil => exact absurd hsp (pySplit_ne_nil _ _)
  | cons p ps =>
    rw [hsp] at hlen
    cases ps with
    | nil =>
      right
      simp only [List.length_cons, List.length_nil] at hlen
      refine ⟨by omega, ?_⟩
      unfold parseLocator
      rw [hsp]
      have : loc.data.count ':' + 1 = 1 := by omega
      rw [this]
      rfl
    | cons q qs =>
      cases qs with
      | nil =>
        left
        simp only [List.length_cons, List.length_nil] at hlen
        refine ⟨by omega, ?_⟩
        unfold parseLocator locatorBucket locatorKey
        rw [hsp]
        simp
      | cons r rs =>
        right
        simp only [List.length_cons] at hlen
        refine ⟨by omega, ?_⟩
        unfold parseLocator
        rw [hsp]
        have : loc.data.count ':' + 1 = rs.length + 1 + 1 + 1 := by omega
        rw [this]
        rfl

theorem aggStage_fst_mem (a : CmdArgs) (env : Env) (cs : ConcurrencyStyle)
    (o : String) : ∀ e ∈ (aggStage a env cs o).1,
    (∃ b k, e = Event.downloadFileobj b k) ∨
    (∃ i bn s, e = Event.statsAgg i bn s o cs) := by
  intro e he
  unfold aggStage at he
  split at he
  · simp at he
  · split at he
    · simp at he
    · rename_i b k _
      simp only [List.mem_cons, List.mem_map] at he
      rcases he with h1 | ⟨t, _, h2⟩
      · exact Or.inl ⟨b, k, h1⟩
      · exact Or.inr ⟨t.1, t.2.1, t.2.2, h2.symm⟩

theorem spatialLoop_fst_mem (modules : String → Option (List String))
    (doc : List (String × Int × String × String × String))
    (o : String) (cs : ConcurrencyStyle) :
    ∀ e ∈ (spatialLoop modules doc o cs).1,
      ∃ i bn ci uf pm, e = Event.statsSpatial i bn o ci uf pm cs := by
  induction doc with
  | nil => intro e he; simp [spatialLoop] at he
  | cons t rest ih =>
    intro e he
    simp only [spatialLoop] at he
    cases hr : resolveUserFunc modules t.2.2.2.1 with
    | error err => rw [hr] at he; simp at he
    | ok uf =>
      rw [hr] at he
      simp only [List.mem_cons] at he
      rcases he with h1 | h2
      · exact ⟨t.1, t.2.1, t.2.2.1, uf, t.2.2.2.2, h1⟩
      · exact ih e h2

theorem spatialStage_fst_mem (a : CmdArgs) (env : Env) (cs : ConcurrencyStyle)
    (o : String) : ∀ e ∈ (spatialStage a env cs o).1,
    (∃ b k, e = Event.downloadFileobj b k) ∨
    (∃ i bn ci uf pm, e = Event.statsSpatial i bn o ci uf pm cs) := by
  intro e he
  unfold spatialStage at he
  split at he
  · simp at he
  · split at he
    · simp at he
    · rename_i b k _
      simp only [List.mem_cons] at he
      rcases he with h1 | h2
      · exact Or.inl ⟨b, k, h1⟩
      · exact Or.inr (spatialLoop_fst_mem env.modules env.spatialDoc o cs e h2)

theorem finalEvents_mem (a : CmdArgs) (env : Env) : ∀ e ∈ finalEvents a env,
    e = Event.uploadFile (localOut a env) a.bucket a.outfile ∨
    e = Event.deleteBatch a.bucket (finalCleanupKeys a) := by
  intro e he
  unfold finalEvents at he
  by_cases h : a.noremove
  · simp [h] at he
    exact Or.inl he
  · simp [h] at he
    rcases he with h1 | h2
    · exact Or.inl h1
    · exact Or.inr h2

theorem preEvents_mem (a : CmdArgs) (env : Env) : ∀ e ∈ preEvents a env,
    e = Event.downloadFileobj a.bucket a.pickle ∨
    e = Event.gdalOpen (vsis3Path a.bucket a.infile) ∨
    e = Event.finalize (localOut a env) ∨
    (∃ ks, e = Event.deleteBatch a.bucket ks) ∨
    e ∈ gdalStatsEvents env ∨
    e = Event.closeHandle (localOut a env) := by
  intro e he
  unfold preEvents at he
  rcases List.mem_append.mp he with h | h
  · rcases List.mem_append.mp h with h | h
    · rcases List.mem_append.mp h with h | h
      · simp only [List.mem_cons, List.not_mem_nil, or_false] at h
        rcases h with h | h | h
        · exact Or.inl h
        · exact Or.inr (Or.inl h)
        · exact Or.inr (Or.inr (Or.inl h))
      · by_cases h1 : a.noremove = true
        · rw [if_pos h1] at h
          simp at h
        · rw [if_neg h1] at h
          obtain ⟨ks, _, hk⟩ := List.mem_map.mp h
          exact Or.inr (Or.inr (Or.inr (Or.inl ⟨ks, hk.symm⟩)))
    · by_cases h2 : a.nogdalstats = true
      · rw [if_pos h2] at h
        simp at h
      · rw [if_neg h2] at h
        exact Or.inr (Or.inr (Or.inr (Or.inr (Or.inl h))))
  · simp only [List.mem_singleton] at h
    exact Or.inr (Or.inr (Or.inr (Or.inr (Or.inr h))))

theorem openCount_take_le_one (p : String) (A B C : List Event)
    (hA : ∀ e ∈ A, openDelta p e = 0) (hB : ∀ e ∈ B, openDelta p e = 0)
    (hC : ∀ e ∈ C, openDelta p e = 0) :
    ∀ n : Nat,
      openCount p ((A ++ Event.finalize p :: (B ++ Event.closeHandle p :: C)).take n) ≤ 1 := by
  induction A with
  | nil =>
    intro n
    cases n with
    | zero => simp [openCount]
    | succ n =>
      simp only [List.nil_append, List.take_succ_cons, openCount_cons]
      have := openCount_take_nonpos p B C hB hC n
      simp only [openDelta, if_pos rfl]
      omega
  | cons a A ih =>
    intro n
    cases n with
    | zero => simp [openCount]
    | succ n =>
      simp only [List.cons_append, List.take_succ_cons, openCount_cons]
      rw [hA a (List.mem_cons_self a A)]
      have := ih (fun x hx => hA x (List.mem_cons_of_mem a hx)) n
      omega

/-- The trace always extends `preEvents`, and the extension holds only
blob-store, statistics and publish events (no raster-handle events). -/
theorem runMain_trace_split (a : CmdArgs) (env : Env) :
    ∃ tail, (runMain a env).1 = preEvents a env ++ tail ∧
      ∀ e ∈ tail,
        (∃ b k, e = Event.downloadFileobj b k) ∨ isStatsCall e = true ∨
        (∃ lp b k, e = Event.uploadFile lp b k) ∨
        (∃ b ks, e = Event.deleteBatch b ks) := by
  have haggm : ∀ e ∈ (runAgg a env).1,
      (∃ b k, e = Event.downloadFileobj b k) ∨ isStatsCall e = true ∨
      (∃ lp b k, e = Event.uploadFile lp b k) ∨
      (∃ b ks, e = Event.deleteBatch b ks) := by
    intro e he
    rcases aggStage_fst_mem a env (runCS a) (localOut a env) e he with h | ⟨i, bn, s, h⟩
    · exact Or.inl h
    · subst h
      exact Or.inr (Or.inl rfl)
  have hspm : ∀ e ∈ (runSp a env).1,
      (∃ b k, e = Event.downloadFileobj b k) ∨ isStatsCall e = true ∨
      (∃ lp b k, e = Event.uploadFile lp b k) ∨
      (∃ b ks, e = Event.deleteBatch b ks) := by
    intro e he
    rcases spatialStage_fst_mem a env (runCS a) (localOut a env) e he with
      h | ⟨i, bn, ci, uf, pm, h⟩
    · exact Or.inl h
    · subst h
      exact Or.inr (Or.inl rfl)
  have hfm : ∀ e ∈ finalEvents a env,
      (∃ b k, e = Event.downloadFileobj b k) ∨ isStatsCall e = true ∨
      (∃ lp b k, e = Event.uploadFile lp b k) ∨
      (∃ b ks, e = Event.deleteBatch b ks) := by
    intro e he
    rcases finalEvents_mem a env e he with h | h
    · exact Or.inr (Or.inr (Or.inl ⟨_, _, _, h⟩))
    · exact Or.inr (Or.inr (Or.inr ⟨_, _, h⟩))
  cases hagg : (runAgg a env).2 with
  | some err =>
    refine ⟨(runAgg a env).1, ?_, haggm⟩
    rw [runMain_agg_err a env err hagg]
  | none =>
    cases hsp : (runSp a env).2 with
    | some err =>
      refine ⟨(runAgg a env).1 ++ (runSp a env).1, ?_, ?_⟩
      · rw [runMain_sp_err a env err hagg hsp, List.append_assoc]
      · intro e he
        rcases List.mem_append.mp he with h | h
        · exact haggm e h
        · exact hspm e h
    | none =>
      refine ⟨(runAgg a env).1 ++ ((runSp a env).1 ++ finalEvents a env), ?_, ?_⟩
      · rw [runMain_ok a env hagg hsp, List.append_assoc, List.append_assoc]
      · intro e he
        rcases List.mem_append.mp he with h | h
        · exact haggm e h
        · rcases List.mem_append.mp h with h | h
          · exact hspm e h
          · exact hfm e h

/-- `preEvents` in open-handle bracket form: two handle-neutral events, the
finalize that opens the local dataset, handle-neutral cleanup/statistics
events, then the close. -/
theorem preEvents_decomp (a : CmdArgs) (env : Env) :
    preEvents a env =
      [Event.downloadFileobj a.bucket a.pickle,
       Event.gdalOpen (vsis3Path a.bucket a.infile)] ++
      Event.finalize (localOut a env) ::
        (((if a.noremove then []
           else (chunk1000 (tileDeleteKeys a env)).map
             (fun b => Event.deleteBatch a.bucket b)) ++
          (if a.nogdalstats then [] else gdalStatsEvents env)) ++
         Event.closeHandle (localOut a env) :: []) := by
  simp [preEvents]

/-- No upload event occurs before the publish stage. -/
theorem no_upload_before_publish (a : CmdArgs) (env : Env) :
    ∀ lp b k, Event.uploadFile lp b k ∉
      preEvents a env ++ (runAgg a env).1 ++ (runSp a env).1 := by
  intro lp b k hmem
  rcases List.mem_append.mp hmem with h | h
  · rcases List.mem_append.mp h with h | h
    · rcases preEvents_mem a env _ h with h | h | h | ⟨ks, h⟩ | h | h <;>
        simp [gdalStatsEvents] at h
    · rcases aggStage_fst_mem a env (runCS a) (localOut a env) _ h with
        ⟨b2, k2, h⟩ | ⟨i, bn, s, h⟩ <;> simp at h
  · rcases spatialStage_fst_mem a env (runCS a) (localOut a env) _ h with
      ⟨b2, k2, h⟩ | ⟨i, bn, ci, uf, pm, h⟩ <;> simp at h

theorem runMain_fst_mem (a : CmdArgs) (env : Env) :
    ∀ e ∈ (runMain a env).1,
      e ∈ preEvents a env ∨ e ∈ (runAgg a env).1 ∨ e ∈ (runSp a env).1 ∨
        e ∈ finalEvents a env := by
  intro e he
  cases hagg : (runAgg a env).2 with
  | some err =>
    rw [runMain_agg_err a env err hagg] at he
    rcases List.mem_append.mp he with h | h
    · exact Or.inl h
    · exact Or.inr (Or.inl h)
  | none =>
    cases hsp : (runSp a env).2 with
    | some err =>
      rw [runMain_sp_err a env err hagg hsp] at he
      rcases List.mem_append.mp he with h | h
      · rcases List.mem_append.mp h with h | h
        · exact Or.inl h
        · exact Or.inr (Or.inl h)
      · exact Or.inr (Or.inr (Or.inl h))
    | none =>
      rw [runMain_ok a env hagg hsp] at he
      rcases List.mem_append.mp he with h | h
      · rcases List.mem_append.mp h with h | h
        · rcases List.mem_append.mp h with h | h
          · exact Or.inl h
          · exact Or.inr (Or.inl h)
        · exact Or.inr (Or.inr (Or.inl h))
      · exact Or.inr (Or.inr (Or.inr h))

/-! ### Tile key structure -/

theorem tileKey_data (pfx : String) (col row : Int) :
    (tileKey pfx col row).data =
      pfx.data ++ '_' ::
        ((toString col).data ++ '_' :: ((toString row).data ++ ['.', 't', 'i', 'f'])) := by
  have h1 : ("_" : String).data = ['_'] := rfl
  have h2 : ((".tif" : String).data) = ['.', 't', 'i', 'f'] := rfl
  simp [tileKey, String.data_append, h1, h2]

/-- For a fixed tile prefix, the tile key determines the coordinates: the
coordinate renderings hold no underscore, so the key decomposes uniquely at
its separators. -/
theorem tileKey_inj (pfx : String) (c1 r1 c2 r2 : Int)
    (h : tileKey pfx c1 r1 = tileKey pfx c2 r2) : c1 = c2 ∧ r1 = r2 := by
  have hd : (tileKey pfx c1 r1).data = (tileKey pfx c2 r2).data := by rw [h]
  rw [tileKey_data, tileKey_data] at hd
  have hd2 := List.append_cancel_left hd
  injection hd2 with _ hd3
  obtain ⟨hc, hr⟩ := append_sep_inj '_' _ _ _ _
    (underscore_not_mem_intToString c1) (underscore_not_mem_intToString c2) hd3
  exact ⟨intToString_inj c1 c2 hc,
    intToString_inj r1 r2 (List.append_cancel_right hr)⟩

/-! ### Claims -/

/-- C2: for every tile key set of size K, tile cleanup issues exactly
ceil(K/1000) sequential batch-delete calls; each batch has at most 1000
keys; the batches concatenate back to the original key sequence (so every
key appears exactly once across all batches); K = 0 issues zero delete
calls; and a key set of size 2500 yields exactly 3 batches of sizes
1000, 1000, 500 in that order. -/
theorem tile_cleanup_batching (l : List String) :
    (chunk1000 l).length = (l.length + 999) / 1000 ∧
    (∀ b ∈ chunk1000 l, b.length ≤ 1000) ∧
    (chunk1000 l).flatten = l ∧
    chunk1000 ([] : List String) = [] ∧
    (l.length = 2500 → (chunk1000 l).map List.length = [1000, 1000, 500]) := by
  refine ⟨chunk1000_length l, chunk1000_batch_le l, chunk1000_flatten l, rfl, ?_⟩
  intro h2500
  have h1 : l ≠ [] := by
    intro he
    rw [he] at h2500
    simp at h2500
  rw [chunk1000_cons l h1]
  have hd1 : (l.drop 1000).length = 1500 := by rw [List.length_drop, h2500]
  have h2 : l.drop 1000 ≠ [] := by
    intro he
    rw [he] at hd1
    simp at hd1
  rw [chunk1000_cons _ h2]
  have hd2 : ((l.drop 1000).drop 1000).length = 500 := by rw [List.length_drop, hd1]
  have h3 : (l.drop 1000).drop 1000 ≠ [] := by
    intro he
    rw [he] at hd2
    simp at hd2
  rw [chunk1000_cons _ h3]
  have hd3 : ((l.drop 1000).drop 1000).drop 1000 = [] :=
    List.eq_nil_of_length_eq_zero (by rw [List.length_drop, hd2])
  rw [hd3, chunk1000_nil]
  simp only [List.map_cons, List.map_nil, List.length_take, h2500, hd1, hd2]
  norm_num

/-- C2 witness: a concrete 2500-key set yields batches of sizes
1000, 1000, 500. -/
theorem tile_cleanup_batching_witness :
    (List.replicate 2500 "k").length = 2500 ∧
    (chunk1000 (List.replicate 2500 "k")).map List.length = [1000, 1000, 500] :=
  ⟨List.length_replicate 2500 "k",
    (tile_cleanup_batching (List.replicate 2500 "k")).2.2.2.2
      (List.length_replicate 2500 "k")⟩

/-- C3: for `colRowList = [(0,0),(0,1),(1,0),(1,1)]` and tile prefix
`run1`, the tile name resolver produces the keys
`run1_0_0.tif, run1_0_1.tif, run1_1_0.tif, run1_1_1.tif` following the
`prefix_col_row.tif` scheme, and tile cleanup issues exactly one delete
batch containing exactly those four keys. -/
theorem scenario_a_resolver_cleanup :
    ([((0 : Int), (0 : Int)), (0, 1), (1, 0), (1, 1)]).map
        (fun cr => tileKey "run1" cr.1 cr.2) =
      ["run1_0_0.tif", "run1_0_1.tif", "run1_1_0.tif", "run1_1_1.tif"] ∧
    chunk1000 (([((0 : Int), (0 : Int)), (0, 1), (1, 0), (1, 1)]).map
        (fun cr => tileKey "run1" cr.1 cr.2)) =
      [["run1_0_0.tif", "run1_0_1.tif", "run1_1_0.tif", "run1_1_1.tif"]] := by
  constructor <;> rfl

/-- C8: for every coordinate list with pairwise-distinct coordinates and
any fixed prefix, the tile name resolver produces pairwise-distinct keys;
and it is deterministic: identical inputs yield identical keys. -/
theorem resolver_distinct_deterministic (pfx : String) (l : List (Int × Int))
    (h : l.Pairwise (· ≠ ·)) :
    (l.map (fun cr => tileKey pfx cr.1 cr.2)).Pairwise (· ≠ ·) ∧
    (∀ p1 p2 : String, ∀ c1 c2 r1 r2 : Int, p1 = p2 → c1 = c2 → r1 = r2 →
      tileKey p1 c1 r1 = tileKey p2 c2 r2) := by
  constructor
  · refine List.Pairwise.map _ ?_ h
    intro x y hxy hk
    obtain ⟨hc, hr⟩ := tileKey_inj pfx x.1 x.2 y.1 y.2 hk
    exact hxy (Prod.ext hc hr)
  · intro p1 p2 c1 c2 r1 r2 hp hc hr
    rw [hp, hc, hr]

/-- C8 witness at a concrete coordinate list. -/
theorem resolver_distinct_deterministic_witness :
    ([((0 : Int), (0 : Int)), (0, 1), (1, 0)] : List (Int × Int)).Pairwise (· ≠ ·) ∧
    (([((0 : Int), (0 : Int)), (0, 1), (1, 0)]).map
      (fun cr => tileKey "run1" cr.1 cr.2)).Pairwise (· ≠ ·) :=
  ⟨by decide,
    (resolver_distinct_deterministic "run1" [(0, 0), (0, 1), (1, 0)] (by decide)).1⟩

/-- Any aggregate statistics call in the trace carries the configuration
built by `mkConcurrencyStyle` from the command line. -/
theorem statsAgg_cs_eq (a : CmdArgs) (env : Env) (i : String) (bn : Int)
    (s o : String) (c : ConcurrencyStyle)
    (h : Event.statsAgg i bn s o c ∈ (runMain a env).1) : c = runCS a := by
  rcases runMain_fst_mem a env _ h with h | h | h | h
  · rcases preEvents_mem a env _ h with h | h | h | ⟨ks, h⟩ | h | h <;>
      simp [gdalStatsEvents] at h
  · rcases aggStage_fst_mem a env (runCS a) (localOut a env) _ h with
      ⟨b2, k2, h⟩ | ⟨i2, bn2, s2, h⟩
    · simp at h
    · simp only [Event.statsAgg.injEq] at h
      exact h.2.2.2.2
  · rcases spatialStage_fst_mem a env (runCS a) (localOut a env) _ h with
      ⟨b2, k2, h⟩ | ⟨i2, bn2, ci2, uf2, pm2, h⟩ <;> simp at h
  · rcases finalEvents_mem a env _ h with h | h <;> simp at h

/-- Any spatial statistics call in the trace carries the configuration
built by `mkConcurrencyStyle` from the command line. -/
theorem statsSpatial_cs_eq (a : CmdArgs) (env : Env) (i : String) (bn : Int)
    (o ci : String) (uf : String × String) (pm : String) (c : ConcurrencyStyle)
    (h : Event.statsSpatial i bn o ci uf pm c ∈ (runMain a env).1) : c = runCS a := by
  rcases runMain_fst_mem a env _ h with h | h | h | h
  · rcases preEvents_mem a env _ h with h | h | h | ⟨ks, h⟩ | h | h <;>
      simp [gdalStatsEvents] at h
  · rcases aggStage_fst_mem a env (runCS a) (localOut a env) _ h with
      ⟨b2, k2, h⟩ | ⟨i2, bn2, s2, h⟩ <;> simp at h
  · rcases spatialStage_fst_mem a env (runCS a) (localOut a env) _ h with
      ⟨b2, k2, h⟩ | ⟨i2, bn2, ci2, uf2, pm2, h⟩
    · simp at h
    · simp only [Event.statsSpatial.injEq] at h
      exact h.2.2.2.2.2.2
  · rcases finalEvents_mem a env _ h with h | h <;> simp at h

/-- C5: the concurrency configuration passed to every statistics engine
call is derived as: with a uniform timeout supplied, all four timeout
fields take that value together with the read-worker count; with no
uniform timeout, only the read-worker count is set and no timeout field
is set. -/
theorem concurrency_config_derivation (w t : Int) (a : CmdArgs) (env : Env) :
    mkConcurrencyStyle w none =
      { numReadWorkers := w, readBufferPopTimeout := none,
        readBufferInsertTimeout := none, computeBufferInsertTimeout := none,
        computeBufferPopTimeout := none } ∧
    mkConcurrencyStyle w (some t) =
      { numReadWorkers := w, readBufferPopTimeout := some t,
        readBufferInsertTimeout := some t, computeBufferInsertTimeout := some t,
        computeBufferPopTimeout := some t } ∧
    (∀ i bn s o c, Event.statsAgg i bn s o c ∈ (runMain a env).1 →
      c = mkConcurrencyStyle a.statsreadworkers a.readworkerstimeouts) ∧
    (∀ i bn o ci uf pm c, Event.statsSpatial i bn o ci uf pm c ∈ (runMain a env).1 →
      c = mkConcurrencyStyle a.statsreadworkers a.readworkerstimeouts) :=
  ⟨rfl, rfl,
    fun i bn s o c h => statsAgg_cs_eq a env i bn s o c h,
    fun i bn o ci uf pm c h => statsSpatial_cs_eq a env i bn o ci uf pm c h⟩

/-- Sample command line for the C5 witness run: aggregate stats configured,
read workers and a uniform timeout supplied. -/
def sampleArgsC5 : CmdArgs :=
  { bucket := "b", infile := "in.img", outfile := "seg/out.kea", tilepfx := "t",
    pickle := "p.pkl", overlapsize := 100, stats := some "b:doc.json",
    statsreadworkers := 4, readworkerstimeouts := some 30 }

/-- Sample environment for the C5 witness run: one aggregate request
tuple. -/
def sampleEnvC5 : Env :=
  { tempDir := "/tmp/w", colRowList := [], maxSegId := 5, hasEmptySegments := false,
    statsDoc := [("img.tif", 1, "mean")], spatialDoc := [], modules := fun _ => none }

/-- C5 witness: the statistics call of a concrete run carries the derived
configuration. -/
theorem concurrency_config_derivation_witness :
    Event.statsAgg "img.tif" 1 "mean" (localOut sampleArgsC5 sampleEnvC5)
        (mkConcurrencyStyle 4 (some 30)) ∈ (runMain sampleArgsC5 sampleEnvC5).1 ∧
    mkConcurrencyStyle 4 (some 30) =
      mkConcurrencyStyle sampleArgsC5.statsreadworkers
        sampleArgsC5.readworkerstimeouts := by
  have hm : Event.statsAgg "img.tif" 1 "mean" (localOut sampleArgsC5 sampleEnvC5)
      (mkConcurrencyStyle 4 (some 30)) ∈ (runMain sampleArgsC5 sampleEnvC5).1 := by
    decide
  exact ⟨hm,
    (concurrency_config_derivation 0 0 sampleArgsC5 sampleEnvC5).2.2.1
      "img.tif" 1 "mean" _ _ hm⟩

/-- C4: a callback name with no separator fails with the error whose
message states the fully-qualified-name requirement; a loadable module
path with a missing function fails with the error naming both the
function and the module; a fully qualified name whose function exists
resolves to the callable given by the components before the last
separator (module path) and the last component (function name). -/
theorem callback_resolution (modules : String → Option (List String))
    (name : String) (m f : List Char) (attrs : List String) :
    ((∀ ch ∈ name.data, ch ≠ '.') →
      resolveUserFunc modules name = Except.error (Err.valueErr fullyQualifiedMsg) ∧
      "fully qualified".data <:+: fullyQualifiedMsg.data) ∧
    (name.data = m ++ '.' :: f → '.' ∉ f →
      modules (String.mk m) = some attrs → String.mk f ∉ attrs →
      resolveUserFunc modules name =
        Except.error (Err.valueErr (cannotFindMsg (String.mk f) (String.mk m))) ∧
      (String.mk f).data <:+: (cannotFindMsg (String.mk f) (String.mk m)).data ∧
      (String.mk m).data <:+: (cannotFindMsg (String.mk f) (String.mk m)).data) ∧
    (name.data = m ++ '.' :: f → '.' ∉ f →
      modules (String.mk m) = some attrs → String.mk f ∈ attrs →
      resolveUserFunc modules name = Except.ok (String.mk m, String.mk f)) := by
  refine ⟨?_, ?_, ?_⟩
  · intro hnodot
    have hdot : '.' ∉ name.data := fun hm2 => hnodot '.' hm2 rfl
    have hsplit : pySplit '.' name.data = [name.data] :=
      pySplit_of_not_mem '.' name.data hdot
    constructor
    · simp only [resolveUserFunc, hsplit]
      rfl
    · decide
  · intro hname hf hmod hnotmem
    have hsplit : pySplit '.' name.data = pySplit '.' m ++ [f] := by
      rw [hname]
      exact pySplit_last '.' m f hf
    have hpos : 0 < (pySplit '.' m).length :=
      List.length_pos.mpr (pySplit_ne_nil '.' m)
    have hres : resolveUserFunc modules name =
        Except.error (Err.valueErr (cannotFindMsg (String.mk f) (String.mk m))) := by
      simp only [resolveUserFunc, hsplit]
      rw [if_neg (by simp only [List.length_append, List.length_cons,
        List.length_nil]; omega)]
      rw [List.dropLast_concat, List.getLastD_concat, pyJoin_pySplit, hmod]
      simp [hnotmem]
    refine ⟨hres, ?_, ?_⟩
    · exact ⟨"Cannot find function ".data, " in module ".data ++ m, by
        simp [cannotFindMsg, String.data_append]⟩
    · exact ⟨"Cannot find function ".data ++ f ++ " in module ".data, [], by
        simp [cannotFindMsg, String.data_append]⟩
  · intro hname hf hmod hmem
    have hsplit : pySplit '.' name.data = pySplit '.' m ++ [f] := by
      rw [hname]
      exact pySplit_last '.' m f hf
    have hpos : 0 < (pySplit '.' m).length :=
      List.length_pos.mpr (pySplit_ne_nil '.' m)
    simp only [resolveUserFunc, hsplit]
    rw [if_neg (by simp only [List.length_append, List.length_cons,
      List.length_nil]; omega)]
    rw [List.dropLast_concat, List.getLastD_concat, pyJoin_pySplit, hmod]
    simp [hmem]

/-- C4 witness: the three resolution outcomes at concrete names, against a
module table holding `mypkg` with the single attribute `myfunc`. -/
theorem callback_resolution_witness :
    resolveUserFunc (fun mn => if mn = "mypkg" then some ["myfunc"] else none)
        "nodots" = Except.error (Err.valueErr fullyQualifiedMsg) ∧
    resolveUserFunc (fun mn => if mn = "mypkg" then some ["myfunc"] else none)
        "mypkg.missing" =
      Except.error (Err.valueErr (cannotFindMsg "missing" "mypkg")) ∧
    resolveUserFunc (fun mn => if mn = "mypkg" then some ["myfunc"] else none)
        "mypkg.myfunc" = Except.ok ("mypkg", "myfunc") := by
  refine ⟨?_, ?_, ?_⟩
  · exact ((callback_resolution _ "nodots" [] [] []).1 (by decide)).1
  · exact ((callback_resolution _ "mypkg.missing" "mypkg".data "missing".data
      ["myfunc"]).2.1 rfl (by decide) (by decide) (by decide)).1
  · exact (callback_resolution _ "mypkg.myfunc" "mypkg".data "myfunc".data
      ["myfunc"]).2.2 rfl (by decide) (by decide) (by decide)

/-- `preEvents` membership when `--nogdalstats` is set: no default GDAL
statistics event occurs. -/
theorem preEvents_mem_nogdal (a : CmdArgs) (env : Env)
    (hflag : a.nogdalstats = true) : ∀ e ∈ preEvents a env,
    e = Event.downloadFileobj a.bucket a.pickle ∨
    e = Event.gdalOpen (vsis3Path a.bucket a.infile) ∨
    e = Event.finalize (localOut a env) ∨
    (∃ ks, e = Event.deleteBatch a.bucket ks) ∨
    e = Event.closeHandle (localOut a env) := by
  intro e he
  unfold preEvents at he
  rw [if_pos hflag] at he
  rcases List.mem_append.mp he with h | h
  · rcases List.mem_append.mp h with h | h
    · rcases List.mem_append.mp h with h | h
      · simp only [List.mem_cons, List.not_mem_nil, or_false] at h
        rcases h with h | h | h
        · exact Or.inl h
        · exact Or.inr (Or.inl h)
        · exact Or.inr (Or.inr (Or.inl h))
      · by_cases h1 : a.noremove = true
        · rw [if_pos h1] at h
          simp at h
        · rw [if_neg h1] at h
          obtain ⟨ks, _, hk⟩ := List.mem_map.mp h
          exact Or.inr (Or.inr (Or.inr (Or.inl ⟨ks, hk.symm⟩)))
    · simp at h
  · simp only [List.mem_singleton] at h
    exact Or.inr (Or.inr (Or.inr (Or.inr h)))

/-- C6: with the skip flag unset, the trace contains, contiguously and in
order, the histogram read, the statistics estimation, the colour table
write sized to exactly (max segment id + 1), and the overview build; with
the flag set, none of the four operations occurs. -/
theorem default_raster_stats (a : CmdArgs) (env : Env) :
    (a.nogdalstats = false →
      ∃ pre post, (runMain a env).1 =
        pre ++ [Event.readHistogram, Event.estimateStats,
          Event.writeColourTable (env.maxSegId + 1), Event.addOverviews] ++ post) ∧
    (a.nogdalstats = true →
      ∀ e ∈ (runMain a env).1, e ≠ Event.readHistogram ∧ e ≠ Event.estimateStats ∧
        (∀ n : Int, e ≠ Event.writeColourTable n) ∧ e ≠ Event.addOverviews) := by
  constructor
  · intro hflag
    obtain ⟨tail, ht, _⟩ := runMain_trace_split a env
    refine ⟨[Event.downloadFileobj a.bucket a.pickle,
        Event.gdalOpen (vsis3Path a.bucket a.infile),
        Event.finalize (localOut a env)] ++
        (if a.noremove then []
         else (chunk1000 (tileDeleteKeys a env)).map
           (fun b => Event.deleteBatch a.bucket b)),
      Event.closeHandle (localOut a env) :: tail, ?_⟩
    rw [ht]
    unfold preEvents
    rw [if_neg (show ¬a.nogdalstats = true by rw [hflag]; simp)]
    simp [gdalStatsEvents, List.append_assoc]
  · intro hflag e he
    rcases runMain_fst_mem a env e he with h | h | h | h
    · rcases preEvents_mem_nogdal a env hflag e h with h | h | h | ⟨ks, h⟩ | h <;>
        simp [h]
    · rcases aggStage_fst_mem a env (runCS a) (localOut a env) e h with
        ⟨b, k, h⟩ | ⟨i, bn, s, h⟩ <;> simp [h]
    · rcases spatialStage_fst_mem a env (runCS a) (localOut a env) e h with
        ⟨b, k, h⟩ | ⟨i, bn, ci, uf, pm, h⟩ <;> simp [h]
    · rcases finalEvents_mem a env e h with h | h <;> simp [h]

/-- Shared sample environment for the witness runs: two tiles, no request
documents. -/
def sampleEnv0 : Env :=
  { tempDir := "/tmp/w", colRowList := [(0, 0), (0, 1)], maxSegId := 7,
    hasEmptySegments := false, statsDoc := [], spatialDoc := [],
    modules := fun _ => none }

/-- Shared sample command line: no optional stages, cleanup enabled. -/
def sampleArgs0 : CmdArgs :=
  { bucket := "b", infile := "in.img", outfile := "seg/out.kea", tilepfx := "t",
    pickle := "p.pkl", overlapsize := 100 }

/-- Sample command line with `--nogdalstats` set. -/
def sampleArgsNoGdal : CmdArgs :=
  { bucket := "b", infile := "in.img", outfile := "seg/out.kea", tilepfx := "t",
    pickle := "p.pkl", overlapsize := 100, nogdalstats := true }

/-- Sample command line with `--noremove` set. -/
def sampleArgsNoRemove : CmdArgs :=
  { bucket := "b", infile := "in.img", outfile := "seg/out.kea", tilepfx := "t",
    pickle := "p.pkl", overlapsize := 100, noremove := true }

/-- C6 witness: both branches at concrete runs. -/
theorem default_raster_stats_witness :
    (∃ pre post, (runMain sampleArgs0 sampleEnv0).1 =
      pre ++ [Event.readHistogram, Event.estimateStats,
        Event.writeColourTable (sampleEnv0.maxSegId + 1), Event.addOverviews] ++ post) ∧
    (∀ e ∈ (runMain sampleArgsNoGdal sampleEnv0).1,
      e ≠ Event.readHistogram ∧ e ≠ Event.estimateStats ∧
      (∀ n : Int, e ≠ Event.writeColourTable n) ∧ e ≠ Event.addOverviews) :=
  ⟨(default_raster_stats sampleArgs0 sampleEnv0).1 rfl,
    (default_raster_stats sampleArgsNoGdal sampleEnv0).2 rfl⟩

/-- Shape of a successful run's trace end when cleanup is enabled: the
publish upload then the single final delete batch, with no earlier
upload. -/
theorem trace_end_upload_delete (a : CmdArgs) (env : Env)
    (h : (runMain a env).2 = none) (hrm : a.noremove = false) :
    ∃ pre, (runMain a env).1 =
        pre ++ [Event.uploadFile (localOut a env) a.bucket a.outfile,
          Event.deleteBatch a.bucket (finalCleanupKeys a)] ∧
      (∀ lp b k, Event.uploadFile lp b k ∉ pre) := by
  obtain ⟨hagg, hsp⟩ := runMain_snd_none a env h
  have htr := runMain_ok a env hagg hsp
  refine ⟨preEvents a env ++ (runAgg a env).1 ++ (runSp a env).1, ?_, ?_⟩
  · rw [htr]
    unfold finalEvents
    rw [if_neg (show ¬a.noremove = true by rw [hrm]; simp)]
  · intro lp b k
    exact no_upload_before_publish a env lp b k

/-- Shape of a successful run's trace end when `--noremove` is set: the
publish upload is the last event, with no delete after it and no earlier
upload. -/
theorem trace_end_upload_only (a : CmdArgs) (env : Env)
    (h : (runMain a env).2 = none) (hrm : a.noremove = true) :
    ∃ pre, (runMain a env).1 =
        pre ++ [Event.uploadFile (localOut a env) a.bucket a.outfile] ∧
      (∀ lp b k, Event.uploadFile lp b k ∉ pre) := by
  obtain ⟨hagg, hsp⟩ := runMain_snd_none a env h
  have htr := runMain_ok a env hagg hsp
  refine ⟨preEvents a env ++ (runAgg a env).1 ++ (runSp a env).1, ?_, ?_⟩
  · rw [htr]
    unfold finalEvents
    rw [if_pos hrm]
  · intro lp b k
    exact no_upload_before_publish a env lp b k

/-- C7: on a successful run, with `--noremove` unset the trace ends with
the publish upload followed by exactly one batched delete whose key set is
`finalCleanupKeys` (the pickle plus each configured request document key);
with the flag set the trace ends at the upload with no delete after it.
In both cases no upload precedes the publish upload. -/
theorem final_cleanup (a : CmdArgs) (env : Env) (h : (runMain a env).2 = none) :
    (a.noremove = false →
      ∃ pre, (runMain a env).1 =
          pre ++ [Event.uploadFile (localOut a env) a.bucket a.outfile,
            Event.deleteBatch a.bucket (finalCleanupKeys a)] ∧
        (∀ lp b k, Event.uploadFile lp b k ∉ pre)) ∧
    (a.noremove = true →
      ∃ pre, (runMain a env).1 =
          pre ++ [Event.uploadFile (localOut a env) a.bucket a.outfile] ∧
        (∀ lp b k, Event.uploadFile lp b k ∉ pre)) :=
  ⟨fun hrm => trace_end_upload_delete a env h hrm,
    fun hrm => trace_end_upload_only a env h hrm⟩

/-- C7 witness: a successful concrete run ends with upload then the final
delete batch. -/
theorem final_cleanup_witness :
    (runMain sampleArgs0 sampleEnv0).2 = none ∧
    (∃ pre, (runMain sampleArgs0 sampleEnv0).1 =
        pre ++ [Event.uploadFile (localOut sampleArgs0 sampleEnv0)
            sampleArgs0.bucket sampleArgs0.outfile,
          Event.deleteBatch sampleArgs0.bucket (finalCleanupKeys sampleArgs0)] ∧
      (∀ lp b k, Event.uploadFile lp b k ∉ pre)) :=
  ⟨rfl, (final_cleanup sampleArgs0 sampleEnv0 rfl).1 rfl⟩

theorem runAgg_subset_trace (a : CmdArgs) (env : Env)
    (hagg : (runAgg a env).2 = none) :
    ∀ e ∈ (runAgg a env).1, e ∈ (runMain a env).1 := by
  intro e he
  cases hsp : (runSp a env).2 with
  | some err =>
    rw [runMain_sp_err a env err hagg hsp]
    simp only [List.mem_append]
    tauto
  | none =>
    rw [runMain_ok a env hagg hsp]
    simp only [List.mem_append]
    tauto

theorem runSp_subset_trace (a : CmdArgs) (env : Env)
    (hagg : (runAgg a env).2 = none) :
    ∀ e ∈ (runSp a env).1, e ∈ (runMain a env).1 := by
  intro e he
  cases hsp : (runSp a env).2 with
  | some err =>
    rw [runMain_sp_err a env err hagg hsp]
    simp only [List.mem_append]
    tauto
  | none =>
    rw [runMain_ok a env hagg hsp]
    simp only [List.mem_append]
    tauto

/-- A successful aggregate stage with a configured locator implies the
locator parsed, and fixes the stage events. -/
theorem runAgg_ok_shape (a : CmdArgs) (env : Env) (loc : String)
    (hs : a.stats = some loc) (hagg : (runAgg a env).2 = none) :
    parseLocator loc = Except.ok (locatorBucket loc, locatorKey loc) ∧
    (runAgg a env).1 =
      Event.downloadFileobj (locatorBucket loc) (locatorKey loc) ::
        env.statsDoc.map
          (fun t => Event.statsAgg t.1 t.2.1 t.2.2 (localOut a env) (runCS a)) := by
  rcases parseLocator_cases loc with ⟨hc, hp⟩ | ⟨hc, hp⟩
  · refine ⟨hp, ?_⟩
    have := aggStage_some_ok a env (runCS a) (localOut a env) loc
      (locatorBucket loc) (locatorKey loc) hs hp
    unfold runAgg
    rw [this]
  · exfalso
    have := aggStage_some_err a env (runCS a) (localOut a env) loc _ hs hp
    unfold runAgg at hagg
    rw [this] at hagg
    simp at hagg

/-- With a configured spatial locator holding exactly one colon, the
spatial stage opens with the document download. -/
theorem runSp_ok_head (a : CmdArgs) (env : Env) (loc : String)
    (hs : a.spatialstats = some loc) (hc : loc.data.count ':' = 1) :
    Event.downloadFileobj (locatorBucket loc) (locatorKey loc) ∈ (runSp a env).1 := by
  rcases parseLocator_cases loc with ⟨_, hp⟩ | ⟨hc2, _⟩
  · have := spatialStage_some_ok a env (runCS a) (localOut a env) loc
      (locatorBucket loc) (locatorKey loc) hs hp
    unfold runSp
    rw [this]
    exact List.mem_cons_self _ _
  · exact absurd hc hc2

/-- C9: when an aggregate or spatial locator names a bucket other than the
main configured bucket, the request document is downloaded from the
locator's bucket, yet the final cleanup delete carrying that document's
key is issued against the main bucket, not the one downloaded from. -/
theorem cross_bucket_final_delete (a : CmdArgs) (env : Env)
    (h : (runMain a env).2 = none) (hrm : a.noremove = false) :
    (∀ loc, a.stats = some loc → locatorBucket loc ≠ a.bucket →
      Event.downloadFileobj (locatorBucket loc) (locatorKey loc) ∈ (runMain a env).1 ∧
      (∃ pre, (runMain a env).1 =
        pre ++ [Event.uploadFile (localOut a env) a.bucket a.outfile,
          Event.deleteBatch a.bucket (finalCleanupKeys a)]) ∧
      locatorKey loc ∈ finalCleanupKeys a ∧
      a.bucket ≠ locatorBucket loc) ∧
    (∀ loc, a.spatialstats = some loc → locatorBucket loc ≠ a.bucket →
      Event.downloadFileobj (locatorBucket loc) (locatorKey loc) ∈ (runMain a env).1 ∧
      (∃ pre, (runMain a env).1 =
        pre ++ [Event.uploadFile (localOut a env) a.bucket a.outfile,
          Event.deleteBatch a.bucket (finalCleanupKeys a)]) ∧
      locatorKey loc ∈ finalCleanupKeys a ∧
      a.bucket ≠ locatorBucket loc) := by
  obtain ⟨hagg, hsp⟩ := runMain_snd_none a env h
  have hend : ∃ pre, (runMain a env).1 =
      pre ++ [Event.uploadFile (localOut a env) a.bucket a.outfile,
        Event.deleteBatch a.bucket (finalCleanupKeys a)] := by
    obtain ⟨pre, hpre, _⟩ := trace_end_upload_delete a env h hrm
    exact ⟨pre, hpre⟩
  constructor
  · intro loc hs hb
    obtain ⟨hp, hshape⟩ := runAgg_ok_shape a env loc hs hagg
    refine ⟨?_, hend, ?_, hb.symm⟩
    · refine runAgg_subset_trace a env hagg _ ?_
      rw [hshape]
      exact List.mem_cons_self _ _
    · unfold finalCleanupKeys
      rw [hs]
      simp
  · intro loc hs hb
    have hcount : loc.data.count ':' = 1 := by
      rcases parseLocator_cases loc with ⟨hc, _⟩ | ⟨_, hp⟩
      · exact hc
      · exfalso
        have := spatialStage_some_err a env (runCS a) (localOut a env) loc _ hs hp
        unfold runSp at hsp
        rw [this] at hsp
        simp at hsp
    refine ⟨?_, hend, ?_, hb.symm⟩
    · exact runSp_subset_trace a env hagg _ (runSp_ok_head a env loc hs hcount)
    · unfold finalCleanupKeys
      rw [hs]
      simp

/-- Sample command line for the cross-bucket witness: the aggregate
request document lives in `other`, the main bucket is `main`. -/
def sampleArgsC9 : CmdArgs :=
  { bucket := "main", infile := "in.img", outfile := "seg/out.kea", tilepfx := "t",
    pickle := "p.pkl", overlapsize := 100, stats := some "other:doc.json" }

/-- C9 witness: the concrete run downloads from `other` and deletes the
document key against `main`. -/
theorem cross_bucket_final_delete_witness :
    Event.downloadFileobj (locatorBucket "other:doc.json")
      (locatorKey "other:doc.json") ∈ (runMain sampleArgsC9 sampleEnv0).1 ∧
    locatorKey "other:doc.json" ∈ finalCleanupKeys sampleArgsC9 ∧
    sampleArgsC9.bucket ≠ locatorBucket "other:doc.json" := by
  have happ := (cross_bucket_final_delete sampleArgsC9 sampleEnv0 rfl rfl).1
    "other:doc.json" rfl (by decide)
  exact ⟨happ.1, happ.2.2.1, happ.2.2.2⟩

/-- C10: a statistics locator is downloaded only when it holds exactly one
colon; with zero or several colons the run raises the unpack error at the
parsing step, truncating the trace before any download or statistics call
for that document. -/
theorem locator_colon_parsing (a : CmdArgs) (env : Env) :
    (∀ loc, a.stats = some loc → loc.data.count ':' ≠ 1 →
      runMain a env =
        (preEvents a env, some (Err.unpackErr 2 (loc.data.count ':' + 1)))) ∧
    (∀ loc, a.stats = some loc → loc.data.count ':' = 1 →
      Event.downloadFileobj (locatorBucket loc) (locatorKey loc) ∈
        (runMain a env).1) ∧
    (∀ loc, a.spatialstats = some loc → loc.data.count ':' ≠ 1 →
      (runAgg a env).2 = none →
      runMain a env = (preEvents a env ++ (runAgg a env).1,
        some (Err.unpackErr 2 (loc.data.count ':' + 1)))) ∧
    (∀ loc, a.spatialstats = some loc → loc.data.count ':' = 1 →
      (runAgg a env).2 = none →
      Event.downloadFileobj (locatorBucket loc) (locatorKey loc) ∈
        (runMain a env).1) := by
  refine ⟨?_, ?_, ?_, ?_⟩
  · intro loc hs hc
    rcases parseLocator_cases loc with ⟨hc1, _⟩ | ⟨_, hp⟩
    · exact absurd hc1 hc
    · have hA : runAgg a env = ([], some (Err.unpackErr 2 (loc.data.count ':' + 1))) := by
        unfold runAgg
        exact aggStage_some_err a env (runCS a) (localOut a env) loc _ hs hp
      have := runMain_agg_err a env (Err.unpackErr 2 (loc.data.count ':' + 1))
        (by rw [hA])
      rw [this, hA]
      simp
  · intro loc hs hc
    rcases parseLocator_cases loc with ⟨_, hp⟩ | ⟨hc2, _⟩
    · have hA : runAgg a env =
          (Event.downloadFileobj (locatorBucket loc) (locatorKey loc) ::
            env.statsDoc.map
              (fun t => Event.statsAgg t.1 t.2.1 t.2.2 (localOut a env) (runCS a)),
            none) := by
        unfold runAgg
        exact aggStage_some_ok a env (runCS a) (localOut a env) loc _ _ hs hp
      refine runAgg_subset_trace a env (by rw [hA]) _ ?_
      rw [hA]
      exact List.mem_cons_self _ _
    · exact absurd hc hc2
  · intro loc hs hc hagg
    rcases parseLocator_cases loc with ⟨hc1, _⟩ | ⟨_, hp⟩
    · exact absurd hc1 hc
    · have hS : runSp a env = ([], some (Err.unpackErr 2 (loc.data.count ':' + 1))) := by
        unfold runSp
        exact spatialStage_some_err a env (runCS a) (localOut a env) loc _ hs hp
      have := runMain_sp_err a env (Err.unpackErr 2 (loc.data.count ':' + 1))
        hagg (by rw [hS])
      rw [this, hS]
      simp
  · intro loc hs hc hagg
    exact runSp_subset_trace a env hagg _ (runSp_ok_head a env loc hs hc)

/-- Sample command line for the malformed-locator witness: the aggregate
locator has no colon. -/
def sampleArgsC10 : CmdArgs :=
  { bucket := "b", infile := "in.img", outfile := "seg/out.kea", tilepfx := "t",
    pickle := "p.pkl", overlapsize := 100, stats := some "nocolon" }

/-- C10 witness: a colon-free locator aborts the run at parsing, with the
trace cut at `preEvents`. -/
theorem locator_colon_parsing_witness :
    runMain sampleArgsC10 sampleEnv0 =
      (preEvents sampleArgsC10 sampleEnv0, some (Err.unpackErr 2 1)) :=
  (locator_colon_parsing sampleArgsC10 sampleEnv0).1 "nocolon" rfl (by decide)

/-- Statistics engine calls never change the number of open handles. -/
theorem openDelta_of_shape (p : String) (e : Event)
    (h : (∃ b k, e = Event.downloadFileobj b k) ∨ isStatsCall e = true ∨
      (∃ lp b k, e = Event.uploadFile lp b k) ∨ (∃ b ks, e = Event.deleteBatch b ks)) :
    openDelta p e = 0 := by
  rcases h with ⟨b, k, h⟩ | h | ⟨lp, b, k, h⟩ | ⟨b, ks, h⟩
  · rw [h]; rfl
  · cases e <;> simp_all [isStatsCall, openDelta]
  · rw [h]; rfl
  · rw [h]; rfl

/-- C1: the statistics engine is never invoked before the output raster
handle from the finalization engine is closed, and at most one handle is
open on the output raster path at any instant (events are counted by their
net handle effect; each statistics call opens and closes its own handle
strictly inside the call). -/
theorem handle_close_before_stats (a : CmdArgs) (env : Env) :
    ∃ pre post,
      (runMain a env).1 = pre ++ Event.closeHandle (localOut a env) :: post ∧
      (∀ e ∈ pre, isStatsCall e = false) ∧
      (∀ n : Nat, openCount (localOut a env) ((runMain a env).1.take n) ≤ 1) := by
  obtain ⟨tail, ht, htail⟩ := runMain_trace_split a env
  set D := (if a.noremove then []
    else (chunk1000 (tileDeleteKeys a env)).map
      (fun b => Event.deleteBatch a.bucket b)) with hD
  set G := (if a.nogdalstats then [] else gdalStatsEvents env) with hG
  have htrace2 : (runMain a env).1 =
      [Event.downloadFileobj a.bucket a.pickle,
       Event.gdalOpen (vsis3Path a.bucket a.infile)] ++
      Event.finalize (localOut a env) ::
        ((D ++ G) ++ Event.closeHandle (localOut a env) :: tail) := by
    rw [ht, preEvents_decomp]
    simp [List.append_assoc]
  have hB : ∀ e ∈ D ++ G, openDelta (localOut a env) e = 0 := by
    intro e he
    rcases List.mem_append.mp he with h | h
    · rw [hD] at h
      by_cases hrm : a.noremove = true
      · rw [if_pos hrm] at h
        simp at h
      · rw [if_neg hrm] at h
        obtain ⟨ks, _, hk⟩ := List.mem_map.mp h
        rw [← hk]
        rfl
    · rw [hG] at h
      by_cases hng : a.nogdalstats = true
      · rw [if_pos hng] at h
        simp at h
      · rw [if_neg hng] at h
        simp only [gdalStatsEvents, List.mem_cons, List.not_mem_nil, or_false] at h
        rcases h with h | h | h | h <;> rw [h] <;> rfl
  have hC : ∀ e ∈ tail, openDelta (localOut a env) e = 0 := fun e he =>
    openDelta_of_shape (localOut a env) e (htail e he)
  refine ⟨[Event.downloadFileobj a.bucket a.pickle,
      Event.gdalOpen (vsis3Path a.bucket a.infile),
      Event.finalize (localOut a env)] ++ (D ++ G), tail, ?_, ?_, ?_⟩
  · rw [htrace2]
    simp [List.append_assoc]
  · intro e he
    rcases List.mem_append.mp he with h | h
    · simp only [List.mem_cons, List.not_mem_nil, or_false] at h
      rcases h with h | h | h <;> rw [h] <;> rfl
    · rcases List.mem_append.mp h with h | h
      · rw [hD] at h
        by_cases hrm : a.noremove = true
        · rw [if_pos hrm] at h
          simp at h
        · rw [if_neg hrm] at h
          obtain ⟨ks, _, hk⟩ := List.mem_map.mp h
          rw [← hk]
          rfl
      · rw [hG] at h
        by_cases hng : a.nogdalstats = true
        · rw [if_pos hng] at h
          simp at h
        · rw [if_neg hng] at h
          simp only [gdalStatsEvents, List.mem_cons, List.not_mem_nil, or_false] at h
          rcases h with h | h | h | h <;> rw [h] <;> rfl
  · intro n
    rw [htrace2]
    exact openCount_take_le_one (localOut a env)
      [Event.downloadFileobj a.bucket a.pickle,
       Event.gdalOpen (vsis3Path a.bucket a.infile)] (D ++ G) tail
      (by
        intro e he
        simp only [List.mem_cons, List.not_mem_nil, or_false] at he
        rcases he with h | h <;> rw [h] <;> rfl)
      hB hC n

/-- C1 witness at a concrete run. -/
theorem handle_close_before_stats_witness :
    ∃ pre post,
      (runMain sampleArgs0 sampleEnv0).1 =
        pre ++ Event.closeHandle (localOut sampleArgs0 sampleEnv0) :: post ∧
      (∀ e ∈ pre, isStatsCall e = false) ∧
      (∀ n : Nat, openCount (localOut sampleArgs0 sampleEnv0)
        ((runMain sampleArgs0 sampleEnv0).1.take n) ≤ 1) :=
  handle_close_before_stats sampleArgs0 sampleEnv0

end DoStitch
